import Mathlib

set_option maxHeartbeats 1000000

/-!
Verification development for the amount-normalization and spreadsheet-serialization
pipeline of `src/app.py`.

Modelling conventions (shallow embedding):

* Python strings are `List Char` (wrapped in `String` at the interface).
* A cell value arriving from the data source is `RawCell`:
  `missing` models `None`/NaN (anything `pd.isna` accepts), `num` models a native
  finite numeric value, `inf` a non-finite float, `text` a string.  Finite
  numeric values are modelled as exact decimals `DecNum` (mantissa `m : Int`,
  scale `e : Nat`, denoting `m / 10 ^ e`); the scale also records the
  int64-vs-float64 typing that `pd.to_numeric` produces (scale 0 within int64
  range: int; otherwise: float).  Python's `str` of such a value is modelled by
  `renderPyNum`: the plain decimal rendering `renderDec` when `str` prints
  plainly (`pyPlainB` — every int, floats in `[1e-4, 1e16)` and `0.0`), and the
  scientific rendering `renderSci` otherwise.  Exactness boundary: a float64
  holds the nearest double and `str` prints its shortest repr, which equals the
  stored decimal up to 17 significant digits; decimals beyond that boundary
  round (modelled for integral magnitudes by `dblRound`, ties-to-even at the
  unit in the last place for magnitudes `≥ 2^53`; sub-`2^53` non-integer
  rounding is not modelled, and no claim's verdict depends on it — where a
  claim does depend on rounding, the counterexample uses an integral value
  whose rounding is exact in the model).
* `pd.to_numeric(s, errors="coerce")` and `float(s)` applied to a string whose
  characters are restricted to `0-9`, `-`, `.`, `+` (which is the case after the
  final defensive filter of `to_number_strict`) accept exactly the grammar
  `sign? (digits ('.' digits*)? | '.' digits+)`; `parseFix` implements that
  grammar.  The two differ in the value returned: `pd.to_numeric` keeps a
  pure-integer string within int64 range exact, while `float` rounds to
  float64 (`dblRound`).  On arbitrary strings (used by `pd.to_numeric` on
  whole columns and by `float(val)` in the writer) the grammar additionally
  allows surrounding whitespace, an exponent part and the `inf`/`infinity`/
  `nan` spellings; `parseFloatLit` implements that, returning a `PyFloat`
  (finite, ±inf, or NaN).
* Python's sequential single-character `str.replace(ch, "")` calls are modelled
  as one `List.filter` over the union of the removed characters (removals of
  distinct single characters commute).  Single-character to single-character
  replacements are modelled as `List.map`.
* `str.strip()` and the regex class `\s` are modelled with one whitespace set
  `spaceChars` (Python's `str.isspace` set restricted to the characters that
  can actually matter here).
-/

/-- The invisible/format characters removed unconditionally by
`to_number_strict`, `_to_number_strict_openpyxl` and `_norm_header`
(lines 19-23, 70-71, 132-133 of `src/app.py`). -/
def invisibleChars : List Char :=
  ['\u00a0', '\ufeff', '\u202f', '\u2009', '\u200a', '\u2007',
   '\u200b', '\u200c', '\u200d', '\u2060', '\u00ad']

/-- Whitespace characters: the set stripped by Python `str.strip()` and matched
by the regex class `\s`. -/
def spaceChars : List Char :=
  [' ', '\t', '\n', '\r', '\x0b', '\x0c', '\x1c', '\x1d', '\x1e', '\x1f',
   '\x85', '\u00a0', '\u1680', '\u2000', '\u2001', '\u2002', '\u2003', '\u2004',
   '\u2005', '\u2006', '\u2007', '\u2008', '\u2009', '\u200a', '\u2028',
   '\u2029', '\u202f', '\u205f', '\u3000']

/-- Boolean whitespace test. -/
def spaceB (c : Char) : Bool := spaceChars.contains c

/-- Python `s.lstrip()`-part of `strip`: drop leading whitespace. -/
def trimLeft (cs : List Char) : List Char := cs.dropWhile spaceB

/-- Drop trailing whitespace. -/
def trimRight (cs : List Char) : List Char := (cs.reverse.dropWhile spaceB).reverse

/-- Python `s.strip()`: drop leading and trailing whitespace. -/
def trimBoth (cs : List Char) : List Char := trimRight (trimLeft cs)

/-- Lines 19-23 / 132-133: remove every occurrence of each invisible character. -/
def stripInvisible (cs : List Char) : List Char :=
  cs.filter (fun c => !(invisibleChars.contains c))

/-- Line 26 / 134: `s.replace(",", "").replace("₩", "").replace("원", "").strip()`. -/
def stripCurrency (cs : List Char) : List Char :=
  trimBoth (cs.filter (fun c => !([',', '₩', '원'].contains c)))

/-- Dash-like characters unified to ASCII minus (lines 29-32 / 135):
non-breaking hyphen, unicode minus, en dash, em dash. -/
def dashB (c : Char) : Bool := ['\u2011', '\u2212', '\u2013', '\u2014'].contains c

/-- Lines 29-32 / 135: unify dash variants to `'-'`. -/
def unifyDash (cs : List Char) : List Char := cs.map (fun c => if dashB c then '-' else c)

/-- Line 35 / 136: `re.sub(r"^[△▲]\s*", "-", s)` — a leading triangle
glyph and the whitespace after it are replaced by a minus sign. -/
def triStep : List Char → List Char
  | c :: rest => if c = '\u25b3' ∨ c = '\u25b2' then '-' :: rest.dropWhile spaceB else c :: rest
  | [] => []

/-- Lines 37-39 / 137-138: if `re.fullmatch(r"\(.*\)", s)` succeeds (first char
`'('`, last char `')'`, and no `'\n'` strictly between, since `.` does not match
a newline), replace with `"-" + s[1:-1].strip()`. -/
def parenStep : List Char → List Char
  | '(' :: rest =>
      match rest.reverse with
      | ')' :: midR => if '\n' ∈ midR then '(' :: rest else '-' :: trimBoth midR.reverse
      | _ => '(' :: rest
  | cs => cs

/-- Lines 42-43 / 139-140: strip one leading `'+'`. -/
def plusStep : List Char → List Char
  | '+' :: rest => rest
  | cs => cs

/-- Line 46 / 141: characters kept by the defensive filter `[^0-9\-\.+]`. -/
def keepB (c : Char) : Bool := c.isDigit || c == '-' || c == '.' || c == '+'

/-- Line 46 / 141: remove every character that is not a digit, sign or dot. -/
def filterKeep (cs : List Char) : List Char := cs.filter keepB

/-- Numeric value of a decimal digit character. -/
def charVal (c : Char) : Nat := c.toNat - 48

/-- Value of a big-endian string of decimal digit characters. -/
def digitsValC (cs : List Char) : Nat := cs.foldl (fun a c => 10 * a + charVal c) 0

/-- An exact decimal number `m / 10 ^ e`: the canonical numeric amount.
`pd.to_numeric`/`float` results are modelled exactly (the values fed to them
here are always decimal literals). -/
structure DecNum where
  m : Int
  e : Nat
deriving DecidableEq, Repr

/-- Unsigned decimal literal: `digits ('.' digits*)? | '.' digits+`
(also `digits '.'`, as accepted by `float`).  Returns the mantissa (all digits
concatenated) and the number of fractional digits; a bare trailing dot yields
scale 1 (`"5."` parses as the float `5.0`, not as an int — the distinction
matters for the int64-vs-float64 typing recorded by the scale). -/
def parseUnsigned (cs : List Char) : Option (Nat × Nat) :=
  let ip := cs.takeWhile Char.isDigit
  let rest := cs.dropWhile Char.isDigit
  match rest with
  | [] => if ip.isEmpty then none else some (digitsValC ip, 0)
  | '.' :: frac =>
      if frac.all Char.isDigit && (!ip.isEmpty || !frac.isEmpty) then
        if frac.isEmpty then some (digitsValC ip * 10, 1)
        else some (digitsValC (ip ++ frac), frac.length)
      else none
  | _ => none

/-- The decimal-literal grammar accepted by `pd.to_numeric(s, errors="coerce")`
and by `float(s)` on strings drawn from the post-filter alphabet
`0-9`, `-`, `.`, `+`: one optional leading sign followed by an unsigned literal. -/
def parseFix : List Char → Option DecNum
  | '-' :: rest => (parseUnsigned rest).map (fun p => ⟨-(p.1 : Int), p.2⟩)
  | '+' :: rest => (parseUnsigned rest).map (fun p => ⟨(p.1 : Int), p.2⟩)
  | cs => (parseUnsigned cs).map (fun p => ⟨(p.1 : Int), p.2⟩)

/-- Lines 48-51 / 142-147: the post-filter sentinel check followed by the
numeric parse (`pd.to_numeric(..., errors="coerce")` resp. `float` under
`try/except`; both return "missing" on failure). -/
def numParsePhase (cs : List Char) : Option DecNum :=
  if cs = [] ∨ cs = ['-'] ∨ cs = ['-', '-'] ∨ cs = ['+'] then none else parseFix cs

/-- The whole text-processing pipeline of `to_number_strict` (lines 16-51),
from the stringified input to the final numeric value. -/
def toNumberCore (cs : List Char) : Option DecNum :=
  numParsePhase (filterKeep (plusStep (parenStep (triStep (unifyDash (stripCurrency (stripInvisible cs)))))))

/-- Little-endian decimal digits of `n`, with explicit fuel (structural
recursion; `fuel ≥ n` suffices). -/
def natToDigitsRev : Nat → Nat → List Nat
  | 0, _ => []
  | fuel + 1, n => if n = 0 then [] else n % 10 :: natToDigitsRev fuel (n / 10)

/-- Big-endian decimal digits of `n` (`[0]` for `0`). -/
def natDigits (n : Nat) : List Nat := if n = 0 then [0] else (natToDigitsRev n n).reverse

/-- The decimal digit character for a digit value. -/
def digitChar : Nat → Char
  | 0 => '0'
  | 1 => '1'
  | 2 => '2'
  | 3 => '3'
  | 4 => '4'
  | 5 => '5'
  | 6 => '6'
  | 7 => '7'
  | 8 => '8'
  | _ => '9'

/-- Python `str` of a native numeric value `m / 10 ^ e`: sign, integer digits,
and — when the scale is positive — a dot followed by exactly `e` fractional
digits (`str(42) = "42"`, `str(42.5) = "42.5"`, `str(-0.005) = "-0.005"`). -/
def renderDec (d : DecNum) : List Char :=
  let nds := natDigits d.m.natAbs
  let pds := List.replicate (d.e + 1 - nds.length) 0 ++ nds
  (if d.m < 0 then ['-'] else []) ++ (pds.take (pds.length - d.e)).map digitChar ++
    (if d.e = 0 then [] else '.' :: (pds.drop (pds.length - d.e)).map digitChar)

/-- Does Python `str` of a normalizer result print in plain (non-scientific)
decimal notation?  `pd.to_numeric` keeps a pure-integer parse as an `int64`
(scale 0, in int64 range), and `str` of an int is always plain; `str(0.0)` is
plain; `str` of a nonzero float64 is plain exactly when `1e-4 ≤ |v| < 1e16`
and scientific otherwise. -/
def pyPlainB (d : DecNum) : Bool :=
  decide (d.e = 0 ∧ -(2 ^ 63 : Int) ≤ d.m ∧ d.m < 2 ^ 63) || decide (d.m = 0) ||
    decide (10 ^ d.e ≤ d.m.natAbs * 10 ^ 4 ∧ d.m.natAbs < 10 ^ (d.e + 16))

/-- Drop trailing zero digits (significant digits of a float repr). -/
def stripTrailZeros (ds : List Nat) : List Nat := (ds.reverse.dropWhile (· == 0)).reverse

/-- Python `str` of a float64 in scientific notation: significant digits with a
dot after the first, then `e`, an explicit exponent sign, and the exponent
padded to at least two digits (`1e-05`, `1.5e+20`). -/
def renderSci (d : DecNum) : List Char :=
  let digs := natDigits d.m.natAbs
  let decExp : Int := (digs.length : Int) - 1 - (d.e : Int)
  let expDigs := natDigits decExp.natAbs
  let expPart := 'e' :: (if decExp < 0 then '-' else '+') ::
    (if expDigs.length < 2 then 0 :: expDigs else expDigs).map digitChar
  match stripTrailZeros digs with
  | [] => []
  | s0 :: srest =>
      (if d.m < 0 then ['-'] else []) ++
        digitChar s0 :: ((if srest.isEmpty then [] else '.' :: srest.map digitChar) ++ expPart)

/-- Python `str` of a native/parsed numeric value: plain decimal (`renderDec`)
when `pyPlainB` holds, scientific notation otherwise.  Exactness boundary of
the model: a float64 stores the nearest double of the decimal, and `str` prints
its shortest repr; for decimals of at most 17 significant digits that repr is
the decimal itself, which is what this function produces. -/
def renderPyNum (d : DecNum) : List Char := if pyPlainB d then renderDec d else renderSci d

/-- Floor of log2, fuel-based (structural recursion; `fuel ≥ n` suffices). -/
def natLog2F : Nat → Nat → Nat
  | 0, _ => 0
  | fuel + 1, n => if n ≤ 1 then 0 else natLog2F fuel (n / 2) + 1

/-- Rounding of a parsed decimal to IEEE-754 float64 (`float(s)`), modelled
exactly on the range where the double is an integer: a magnitude `≥ 2^53` is
rounded to the nearest multiple of its unit in the last place, ties to even.
Below `2^53` the model keeps the exact decimal — there `pd.to_numeric` and
`float` round identically, so no claim's verdict depends on that boundary. -/
def dblRound (d : DecNum) : DecNum :=
  let a := d.m.natAbs
  let n0 := a / 10 ^ d.e
  if n0 < 2 ^ 53 then d
  else
    let k := natLog2F n0 n0 - 52
    let den := 10 ^ d.e * 2 ^ k
    let f := a / den
    let r := a % den
    let rounded :=
      if 2 * r < den then f
      else if den < 2 * r then f + 1
      else if f % 2 = 0 then f else f + 1
    ⟨(if d.m < 0 then -((rounded * 2 ^ k : Nat) : Int) else ((rounded * 2 ^ k : Nat) : Int)), 0⟩

/-- A raw cell value as delivered by the data source: a missing marker
(`None`/NaN — everything `pd.isna` recognises), a native finite numeric value,
a non-finite float (`±inf`, e.g. produced by `pd.to_numeric` on `"inf"` text),
or text. -/
inductive RawCell where
  | missing
  | num (d : DecNum)
  | inf (neg : Bool)
  | text (s : String)
deriving DecidableEq, Repr

/-- Lines 13-51 of `src/app.py`: `to_number_strict`.  `pd.isna` input returns
NaN immediately; otherwise the input is stringified (`renderPyNum` for
numerics, `"inf"`/`"-inf"` for non-finite floats) and run through the
text-processing pipeline. -/
def to_number_strict : RawCell → Option DecNum
  | .missing => none
  | .num d => toNumberCore (renderPyNum d)
  | .inf b => toNumberCore (if b then "-inf".data else "inf".data)
  | .text s => toNumberCore s.data

/-- Lines 128-147 of `src/app.py`: `_to_number_strict_openpyxl`, the repair-pass
parser.  `None` input returns `None`; otherwise the same text-processing chain
as `to_number_strict`, ending in `float` under `try/except` instead of
`pd.to_numeric(..., errors="coerce")`.  On the post-filter alphabet both accept
exactly the `parseFix` grammar, but `float` returns an IEEE float64 — modelled
by `dblRound` — while `pd.to_numeric` keeps pure-integer strings int64-exact. -/
def to_number_strict_openpyxl : Option String → Option DecNum
  | none => none
  | some s =>
      (numParsePhase (filterKeep (plusStep (parenStep (triStep (unifyDash (stripCurrency (stripInvisible s.data)))))))).map
        dblRound

/-- Python `str.lower()` (ASCII case folding; the substring being searched for,
`"amount"`, is pure ASCII). -/
def lowerList (cs : List Char) : List Char := cs.map Char.toLower

/-- Does `pat` occur at the very start of the list (substring-search helper)? -/
def leadMatch : List Char → List Char → Bool
  | [], _ => true
  | _ :: _, [] => false
  | a :: p, b :: l => a == b && leadMatch p l

/-- Python's substring test `pat in s`. -/
def containsSeq (pat : List Char) : List Char → Bool
  | [] => pat.isEmpty
  | b :: t => leadMatch pat (b :: t) || containsSeq pat t

/-- The substring that designates a monetary column. -/
def amountPat : List Char := ['a', 'm', 'o', 'u', 'n', 't']

/-- Lines 66-72 of `src/app.py`: `_norm_header` — lowercase, remove the
invisible characters, strip surrounding whitespace. -/
def normHeader (s : String) : List Char := trimBoth (stripInvisible (lowerList s.data))

/-- Line 74: the writer's AmountColumn test, `"amount" in _norm_header(c)`. -/
def isAmountWriter (c : String) : Bool := containsSeq amountPat (normHeader c)

/-- Line 262: the collection pipeline's AmountColumn test,
`"amount" in str(c).lower()` (no invisible-character stripping). -/
def isAmountLoop (c : String) : Bool := containsSeq amountPat (lowerList c.data)

/-- An optionally signed run of digits (the exponent part of a float literal). -/
def parseSignedInt : List Char → Option Int
  | '-' :: ds => if ds ≠ [] ∧ ds.all Char.isDigit then some (-(digitsValC ds : Int)) else none
  | '+' :: ds => if ds ≠ [] ∧ ds.all Char.isDigit then some ((digitsValC ds : Int)) else none
  | ds => if ds ≠ [] ∧ ds.all Char.isDigit then some ((digitsValC ds : Int)) else none

/-- Combine an unsigned mantissa `n / 10 ^ e` with a decimal exponent `k`. -/
def applyExp (n : Nat) (e : Nat) (k : Int) : DecNum :=
  if (e : Int) ≤ k then ⟨(n : Int) * 10 ^ (k - (e : Int)).toNat, 0⟩
  else ⟨(n : Int), ((e : Int) - k).toNat⟩

/-- Unsigned float literal with optional exponent part. -/
def parseUnsignedExp (cs : List Char) : Option DecNum :=
  let mant := cs.takeWhile (fun c => c != 'e' && c != 'E')
  let rest := cs.dropWhile (fun c => c != 'e' && c != 'E')
  match rest with
  | [] => (parseUnsigned mant).map (fun p => ⟨(p.1 : Int), p.2⟩)
  | _ :: ex =>
      match parseUnsigned mant, parseSignedInt ex with
      | some p, some k => some (applyExp p.1 p.2 k)
      | _, _ => none

/-- Value of a Python float literal: a finite decimal, ±infinity, or NaN. -/
inductive PyFloat where
  | finite (d : DecNum)
  | infF (neg : Bool)
  | nanF
deriving DecidableEq, Repr

/-- Body of a float literal after the optional sign: the `inf`, `infinity` and
`nan` spellings (case-insensitive) or an unsigned decimal with optional
exponent. -/
def parseFloatBody (neg : Bool) (r : List Char) : Option PyFloat :=
  if lowerList r = "inf".data ∨ lowerList r = "infinity".data then some (.infF neg)
  else if lowerList r = "nan".data then some .nanF
  else (parseUnsignedExp r).map (fun d => .finite (if neg then ⟨-d.m, d.e⟩ else d))

/-- The float-literal grammar of Python `float(s)` / elementwise
`pd.to_numeric(..., errors="coerce")` on arbitrary strings: surrounding
whitespace, one optional sign, then `inf`/`infinity`/`nan` or digits with at
most one dot and an optional exponent (underscore spellings are not modelled;
the finite value is kept as the exact decimal — the float64 rounding of it is
outside this function's uses, which never depend on the rounded digits). -/
def parseFloatLit (cs : List Char) : Option PyFloat :=
  match trimBoth cs with
  | '-' :: r => parseFloatBody true r
  | '+' :: r => parseFloatBody false r
  | r => parseFloatBody false r

/-- Elementwise effect of `pd.to_numeric(column, errors="coerce")`
(lines 77-78 and 265): numbers and ±inf pass through, strings are parsed as
float literals (`"inf"` text becomes infinity, `"nan"` becomes NaN), anything
unparseable (and missing) becomes the missing marker. -/
def pdToNumericCell : RawCell → RawCell
  | .missing => .missing
  | .num d => .num d
  | .inf b => .inf b
  | .text s =>
      match parseFloatLit s.data with
      | some (.finite d) => .num d
      | some (.infF b) => .inf b
      | some .nanF => .missing
      | none => .missing

/-- A pandas DataFrame: ordered column names and row-major cells. -/
structure DataFrame where
  colNames : List String
  rows : List (List RawCell)
deriving DecidableEq, Repr

/-- Well-formedness: every row has exactly one value per declared column. -/
def DataFrame.WF (df : DataFrame) : Bool :=
  df.rows.all (fun r => r.length == df.colNames.length)

/-- Which columns the writer treats as AmountColumns (line 74), as a mask in
column order. -/
def amountMask (df : DataFrame) : List Bool := df.colNames.map isAmountWriter

/-- Lines 77-78 for a single column name:
`df[col] = pd.to_numeric(df[col], errors="coerce")`.  When the label is
duplicated (or absent), `df[col]` is not a Series and `pd.to_numeric` raises a
TypeError (resp. the lookup raises) — `none` models the raise.  On a unique
label, every cell of that column is coerced elementwise. -/
def coerceColumn (c : String) (df : DataFrame) : Option DataFrame :=
  if df.colNames.count c = 1 then
    some ⟨df.colNames,
      df.rows.map (fun r =>
        List.zipWith (fun n v => if n = c then pdToNumericCell v else v) df.colNames r)⟩
  else none

/-- The lines 77-78 loop over the AmountColumn names, threading the in-place
DataFrame state.  The Bool records whether the loop ran to completion
(`false`: a `pd.to_numeric` call raised, leaving the DataFrame as already
partially coerced). -/
def coerceLoop : List String → DataFrame → DataFrame × Bool
  | [], df => (df, true)
  | c :: cs, df =>
      match coerceColumn c df with
      | some df2 => coerceLoop cs df2
      | none => (df, false)

/-- Content of one spreadsheet cell: blank, a true number, or text. -/
inductive CellVal where
  | blankC
  | numC (d : DecNum)
  | textC (s : String)
deriving DecidableEq, Repr

/-- One spreadsheet cell: content plus the number-format applied to it. -/
structure Cell where
  v : CellVal
  fmt : Option String
deriving DecidableEq, Repr

/-- The fixed thousands-separator display format. -/
def numFmt : String := "#,##0"

/-- The written worksheet: the header row and the data-cell grid (0-based). -/
structure Sheet where
  header : List String
  cells : List (List Cell)
deriving DecidableEq, Repr

/-- Lines 96-111: one cell of the primary XlsxWriter pass.  In an AmountColumn,
missing becomes `write_blank` with the `#,##0` format and anything else goes
through `write_number(float(val), fmt)` — `float` of a string parses or raises,
and `write_number` itself raises on a non-finite value (inf from the coercion,
or a string spelling inf/nan); `none` models either raise.  Elsewhere, missing
becomes a plain blank, a finite number (`math.isfinite`) is written as a
number, and everything else — text and non-finite floats — is written as
`str(val)` text. -/
def writeCell (amount : Bool) (v : RawCell) : Option Cell :=
  if amount then
    match v with
    | .missing => some ⟨.blankC, some numFmt⟩
    | .num d => some ⟨.numC d, some numFmt⟩
    | .inf _ => none
    | .text s =>
        match parseFloatLit s.data with
        | some (.finite d) => some ⟨.numC d, some numFmt⟩
        | _ => none
  else
    match v with
    | .missing => some ⟨.blankC, none⟩
    | .num d => some ⟨.numC d, none⟩
    | .inf b => some ⟨.textC (if b then "-inf" else "inf"), none⟩
    | .text s => some ⟨.textC s, none⟩

/-- One data row of the primary pass (`for j, col in enumerate(df.columns)`). -/
def writeRow : List Bool → List RawCell → Option (List Cell)
  | b :: bs, v :: vs =>
      match writeCell b v, writeRow bs vs with
      | some c, some cs => some (c :: cs)
      | _, _ => none
  | _, _ => some []

/-- All data rows of the primary pass (`for i in range(n_rows)`). -/
def writeRows (mask : List Bool) : List (List RawCell) → Option (List (List Cell))
  | [] => some []
  | r :: rs =>
      match writeRow mask r, writeRows mask rs with
      | some cr, some crs => some (cr :: crs)
      | _, _ => none

/-- Lines 81-118: the primary write pass — header row from the column names,
one written row per record (`none` models a raised write error). -/
def writePass1 (df : DataFrame) : Option Sheet :=
  (writeRows (amountMask df) df.rows).map (fun cs => ⟨df.colNames, cs⟩)

/-- Lines 160-169: the repair applied to one data cell of a resolved
AmountColumn.  A textual cell that now parses is overwritten with the number
and given the `#,##0` format; a textual cell that does not parse is left
untouched; a non-blank non-text cell just gets the format (re)applied. -/
def repairCell (c : Cell) : Cell :=
  match c.v with
  | .textC s =>
      match to_number_strict_openpyxl (some s) with
      | some d => ⟨.numC d, some numFmt⟩
      | none => c
  | .blankC => c
  | .numC d => ⟨.numC d, some numFmt⟩

/-- Replace the element at one position (identity out of range). -/
def updateAt (f : α → α) : Nat → List α → List α
  | _, [] => []
  | 0, a :: l => f a :: l
  | n + 1, a :: l => a :: updateAt f n l

/-- Index of the last occurrence of a name (the dict `name_to_colidx` of
line 126 keeps the last index for a repeated header; 0-based here). -/
def lastIdxOf : List String → String → Option Nat
  | [], _ => none
  | a :: l, c =>
      match lastIdxOf l c with
      | some j => some (j + 1)
      | none => if a = c then some 0 else none

/-- Distinct names in first-occurrence order (Python dict iteration order). -/
def dedupKeepFirst (l : List String) : List String :=
  l.foldl (fun acc h => if h ∈ acc then acc else acc ++ [h]) []

/-- Lines 150-158: resolve a column name in the reopened sheet — exact header
match first, otherwise the first distinct header that normalizes to the same
amount-like name. -/
def resolveIdx (hdr : List String) (c : String) : Option Nat :=
  match lastIdxOf hdr c with
  | some j => some j
  | none =>
      ((dedupKeepFirst hdr).filter
        (fun h => containsSeq amountPat (normHeader h) && normHeader h == normHeader c)).head?.bind
        (lastIdxOf hdr)

/-- Lines 149-169: the repair loop body for one AmountColumn name. -/
def repairCol (c : String) (sh : Sheet) : Sheet :=
  match resolveIdx sh.header c with
  | none => sh
  | some j => ⟨sh.header, sh.cells.map (updateAt repairCell j)⟩

/-- Lines 120-171: the whole openpyxl verification/repair pass. -/
def repairPass (cols : List String) (sh : Sheet) : Sheet :=
  cols.foldl (fun s c => repairCol c s) sh

/-- The data cell at (row `i`, column `j`), 0-based. -/
def cellAt (sh : Sheet) (i j : Nat) : Option Cell :=
  (sh.cells[i]?).bind (fun r => r[j]?)

/-- Lines 57-171: `save_excel_with_comma_format`.  The first component is the
state of the caller's DataFrame after the call (the in-place coercion of
lines 77-78, possibly partial if that loop raised); the second is the written
file after the primary pass and the repair pass, with `none` covering both a
raise inside the coercion loop (duplicated amount label) and a raise inside
the primary write (`write_number` on an unacceptable value) — in either case
no file is produced. -/
def save_excel_with_comma_format (df : DataFrame) : DataFrame × Option Sheet :=
  let amountCols := df.colNames.filter isAmountWriter
  let res := coerceLoop amountCols df
  (res.1, if res.2 then (writePass1 res.1).map (repairPass amountCols) else none)

/-- Is this cell textual? -/
def RawCell.isTextCell : RawCell → Bool
  | .text _ => true
  | _ => false

/-- Decidable test: no AmountColumn cell of the DataFrame is textual. -/
def amountCellsClean (df : DataFrame) : Bool :=
  df.rows.all (fun r => (List.zip (amountMask df) r).all (fun p => !p.1 || !p.2.isTextCell))

/-- Outcome of one `dart.finstate_all` call (line 244): a DataFrame, a
non-DataFrame result (e.g. `None`), or a raised exception. -/
inductive FetchOutcome where
  | frame (df : DataFrame)
  | noneResult
  | raises (msg : String)

/-- `df.empty` for the line-245 check: any axis of length 0. -/
def dfEmpty (df : DataFrame) : Bool := df.rows.isEmpty || df.colNames.isEmpty

/-- Did the fetch raise? -/
def FetchOutcome.isRaises : FetchOutcome → Bool
  | .raises _ => true
  | _ => false

/-- Lines 246-247: tag a fetched frame with the provenance columns
`조회기업` (queried company) and `조회연도` (queried year). -/
def addProvenance (name : String) (year : Nat) (df : DataFrame) : DataFrame :=
  ⟨df.colNames ++ ["조회기업", "조회연도"],
   df.rows.map (fun r => r ++ [RawCell.text name, RawCell.num ⟨(year : Int), 0⟩])⟩

/-- Accumulated state of the collection loop: collected frames plus the
success/"no data"/error messages issued so far (keyed by (year, code)). -/
structure CollectResult where
  frames : List DataFrame
  successes : List (Nat × String)
  warnings : List (Nat × String)
  errors : List (Nat × String)
deriving DecidableEq, Repr

/-- Lines 242-253: the body of the collection loop for one (year, code) pair. -/
def collectStep (fetch : Nat → String → FetchOutcome) (nameMap : String → String)
    (acc : CollectResult) (p : Nat × String) : CollectResult :=
  match fetch p.1 p.2 with
  | .frame df =>
      if !dfEmpty df then
        ⟨acc.frames ++ [addProvenance (nameMap p.2) p.1 df], acc.successes ++ [p],
         acc.warnings, acc.errors⟩
      else ⟨acc.frames, acc.successes, acc.warnings ++ [p], acc.errors⟩
  | .noneResult => ⟨acc.frames, acc.successes, acc.warnings ++ [p], acc.errors⟩
  | .raises _ => ⟨acc.frames, acc.successes, acc.warnings, acc.errors ++ [p]⟩

/-- The iteration order of lines 241-242: `for year in years: for code in codes`. -/
def pairsOf (years : List Nat) (codes : List String) : List (Nat × String) :=
  years.flatMap (fun y => codes.map (fun c => (y, c)))

/-- Lines 240-253: the whole collection loop. -/
def collect (fetch : Nat → String → FetchOutcome) (nameMap : String → String)
    (years : List Nat) (codes : List String) : CollectResult :=
  (pairsOf years codes).foldl (collectStep fetch nameMap) ⟨[], [], [], []⟩

/-- Modelled from the spec: "the entire trimmed string is wrapped in a single
matching pair of parentheses" — scanning the middle, the running parenthesis
depth never goes negative (no `')'` closes the outer `'('` early) and returns
to zero at the end (the final `')'` closes the outer `'('`). -/
def wrappedAux : List Char → Int → Bool
  | [], d => d == 0
  | c :: t, d =>
      if c = '(' then wrappedAux t (d + 1)
      else if c = ')' then (if d = 0 then false else wrappedAux t (d - 1))
      else wrappedAux t d

/-- Modelled from the spec (claim C8's trigger condition): first character `'('`,
last character `')'`, and those two parentheses match each other. -/
def wrappedInSingleMatchingPair (cs : List Char) : Bool :=
  match cs with
  | '(' :: rest =>
      match rest.reverse with
      | ')' :: midR => wrappedAux midR.reverse 0
      | _ => false
  | _ => false

/-- Concrete frame returned for company code "A" in the C9 scenario. -/
def dfA : DataFrame := ⟨["thstrm_amount"], [[RawCell.num ⟨1, 0⟩]]⟩

/-- Concrete frame returned for company code "C" in the C9 scenario. -/
def dfC : DataFrame := ⟨["thstrm_amount"], [[RawCell.num ⟨3, 0⟩]]⟩

/-- A fetch collaborator for which the second of three requests raises. -/
def fetchScenario : Nat → String → FetchOutcome := fun _ c =>
  if c = "B" then .raises "boom" else if c = "A" then .frame dfA else .frame dfC

/-- A DataFrame whose amount column still holds unparseable text. -/
def dfTextAmount : DataFrame := ⟨["amount"], [[RawCell.text "abc"]]⟩

/-- A DataFrame whose amount column is already numeric. -/
def dfNumAmount : DataFrame := ⟨["amount"], [[RawCell.num ⟨5, 0⟩]]⟩

/-- A sheet whose single amount cell is still textual (repair-pass witness). -/
def sheetTextAmount : Sheet := ⟨["amount"], [[⟨CellVal.textC "1,234", none⟩]]⟩

/-- A mixed DataFrame for exercising the full writer. -/
def dfMixed : DataFrame :=
  ⟨["thstrm_amount", "fs_nm"],
   [[RawCell.text "1,234", RawCell.text "BS"], [RawCell.missing, RawCell.num ⟨7, 0⟩]]⟩

/-- The sheet that the writer produces for `dfMixed`. -/
def sheetMixed : Sheet :=
  ⟨["thstrm_amount", "fs_nm"],
   [[⟨CellVal.blankC, some numFmt⟩, ⟨CellVal.textC "BS", none⟩],
    [⟨CellVal.blankC, some numFmt⟩, ⟨CellVal.numC ⟨7, 0⟩, none⟩]]⟩


/-! Digit arithmetic: correctness of `natDigits`/`renderDec` against `parseFix`. -/

theorem parenStep_of_head_ne (a : Char) (t : List Char) (h : a ≠ '(') :
    parenStep (a :: t) = a :: t := by
  unfold parenStep
  split
  · rename_i rest heq
    injection heq with h3 h4
    exact absurd h3 h
  · rfl

theorem plusStep_of_head_ne (a : Char) (t : List Char) (h : a ≠ '+') :
    plusStep (a :: t) = a :: t := by
  unfold plusStep
  split
  · rename_i rest heq
    injection heq with h3 h4
    exact absurd h3 h
  · rfl

/-- No character of the list is a decimal digit. -/
def NoDigitL (l : List Char) : Prop := ∀ c ∈ l, c.isDigit = false

theorem mem_trimLeft (c : Char) (l : List Char) (h : c ∈ trimLeft l) : c ∈ l :=
  (List.dropWhile_sublist spaceB).subset h

theorem mem_trimRight (c : Char) (l : List Char) (h : c ∈ trimRight l) : c ∈ l := by
  unfold trimRight at h
  rw [List.mem_reverse] at h
  exact List.mem_reverse.mp ((List.dropWhile_sublist spaceB).subset h)

theorem mem_trimBoth (c : Char) (l : List Char) (h : c ∈ trimBoth l) : c ∈ l :=
  mem_trimLeft c l (mem_trimRight c (trimLeft l) h)

theorem parenStep_cons_paren (rest : List Char) :
    parenStep ('(' :: rest) =
      (match rest.reverse with
       | ')' :: midR => if '\n' ∈ midR then '(' :: rest else '-' :: trimBoth midR.reverse
       | _ => '(' :: rest) := rfl

theorem parenStep_inner_close (rest midR : List Char) (h : rest.reverse = ')' :: midR) :
    parenStep ('(' :: rest) =
      if '\n' ∈ midR then '(' :: rest else '-' :: trimBoth midR.reverse := by
  rw [parenStep_cons_paren, h]
  rfl

theorem parenStep_inner_other (rest : List Char) (r0 : Char) (midR : List Char)
    (h : rest.reverse = r0 :: midR) (hr : r0 ≠ ')') : parenStep ('(' :: rest) = '(' :: rest := by
  rw [parenStep_cons_paren, h]
  split
  · rename_i m heq
    injection heq with h3 h4
    exact absurd h3 hr
  · rfl

theorem parenStep_fires (mid : List Char) (h : '\n' ∉ mid) :
    parenStep ('(' :: (mid ++ [')'])) = '-' :: trimBoth mid := by
  rw [parenStep_inner_close (mid ++ [')']) mid.reverse (by simp)]
  rw [if_neg (fun hm => h (List.mem_reverse.mp hm)), List.reverse_reverse]

theorem parenStep_cases (l : List Char) :
    parenStep l = l ∨
      ∃ mid, l = '(' :: (mid ++ [')']) ∧ '\n' ∉ mid ∧ parenStep l = '-' :: trimBoth mid := by
  cases l with
  | nil => left; rfl
  | cons a t =>
      by_cases ha : a = '('
      · subst ha
        rcases hrev : t.reverse with _ | ⟨r0, midR⟩
        · left
          have ht : t = [] := by simpa using congrArg List.reverse hrev
          subst ht
          rfl
        · by_cases hr0 : r0 = ')'
          · subst hr0
            have ht : t = midR.reverse ++ [')'] := by
              have := congrArg List.reverse hrev
              simpa using this
            by_cases hnl : '\n' ∈ midR
            · left
              rw [parenStep_inner_close t midR hrev, if_pos hnl]
            · right
              refine ⟨midR.reverse, by rw [ht], fun hm => hnl (List.mem_reverse.mp hm), ?_⟩
              rw [parenStep_inner_close t midR hrev, if_neg hnl]
          · left
            exact parenStep_inner_other t r0 midR hrev hr0
      · left
        exact parenStep_of_head_ne a t ha

theorem noDigit_stripInvisible (l : List Char) (h : NoDigitL l) : NoDigitL (stripInvisible l) :=
  fun c hc => h c (List.mem_of_mem_filter hc)

theorem noDigit_stripCurrency (l : List Char) (h : NoDigitL l) : NoDigitL (stripCurrency l) :=
  fun c hc => h c (List.mem_of_mem_filter (mem_trimBoth c _ hc))

theorem noDigit_unifyDash (l : List Char) (h : NoDigitL l) : NoDigitL (unifyDash l) := by
  intro c hc
  obtain ⟨x, hx, rfl⟩ := List.mem_map.mp hc
  by_cases hd : dashB x
  · simp [hd]
  · simpa [hd] using h x hx

theorem triStep_cons (a : Char) (t : List Char) :
    triStep (a :: t) =
      if a = '△' ∨ a = '▲' then '-' :: t.dropWhile spaceB else a :: t := rfl

theorem noDigit_triStep (l : List Char) (h : NoDigitL l) : NoDigitL (triStep l) := by
  cases l with
  | nil => exact h
  | cons a t =>
      intro c hc
      rw [triStep_cons] at hc
      by_cases ha : a = '△' ∨ a = '▲'
      · rw [if_pos ha] at hc
        rcases List.mem_cons.mp hc with rfl | hc
        · decide
        · exact h c (by
            have := (List.dropWhile_sublist spaceB).subset hc
            simp [this])
      · rw [if_neg ha] at hc
        exact h c hc

theorem noDigit_parenStep (l : List Char) (h : NoDigitL l) : NoDigitL (parenStep l) := by
  rcases parenStep_cases l with heq | ⟨mid, hl, _, heq⟩
  · rw [heq]; exact h
  · rw [heq]
    intro c hc
    rcases List.mem_cons.mp hc with rfl | hc
    · decide
    · refine h c ?_
      rw [hl]
      simp [mem_trimBoth c mid hc]

theorem noDigit_plusStep (l : List Char) (h : NoDigitL l) : NoDigitL (plusStep l) := by
  cases l with
  | nil => exact h
  | cons a t =>
      by_cases ha : a = '+'
      · subst ha
        exact fun c hc => h c (by simp [plusStep] at hc ⊢; simp [hc])
      · rw [plusStep_of_head_ne a t ha]
        exact h

theorem noDigit_filterKeep (l : List Char) (h : NoDigitL l) : NoDigitL (filterKeep l) :=
  fun c hc => h c (List.mem_of_mem_filter hc)

theorem parseFix_of_head_ne (a : Char) (t : List Char) (h1 : a ≠ '-') (h2 : a ≠ '+') :
    parseFix (a :: t) = (parseUnsigned (a :: t)).map (fun p => (⟨(p.1 : Int), p.2⟩ : DecNum)) := by
  unfold parseFix
  split
  · rename_i rest heq
    injection heq with h3 h4
    exact absurd h3 h1
  · rename_i rest heq
    injection heq with h3 h4
    exact absurd h3 h2
  · rfl

theorem parseUnsigned_none_of_nodigit (l : List Char) (h : NoDigitL l) :
    parseUnsigned l = none := by
  cases l with
  | nil => rfl
  | cons a t =>
      have ha : a.isDigit = false := h a (by simp)
      simp only [parseUnsigned]
      rw [List.takeWhile_cons_of_neg (by simp [ha]), List.dropWhile_cons_of_neg (by simp [ha])]
      by_cases hdot : a = '.'
      · subst hdot
        cases t with
        | nil => rfl
        | cons b t' =>
            have hb : b.isDigit = false := h b (by simp)
            simp [hb]
      · split
        · rename_i heq
          exact absurd (congrArg (List.length) heq) (by simp)
        · rename_i heq
          injection heq with h3 h4
          exact absurd h3 hdot
        · rfl

theorem parseFix_none_of_nodigit (l : List Char) (h : NoDigitL l) : parseFix l = none := by
  cases l with
  | nil =>
      show (parseUnsigned []).map (fun p => (⟨(p.1 : Int), p.2⟩ : DecNum)) = none
      rw [parseUnsigned_none_of_nodigit [] h]
      rfl
  | cons a t =>
      have ht : NoDigitL t := fun c hc => h c (by simp [hc])
      by_cases h1 : a = '-'
      · subst h1
        show (parseUnsigned t).map (fun p => (⟨-(p.1 : Int), p.2⟩ : DecNum)) = none
        rw [parseUnsigned_none_of_nodigit t ht]
        rfl
      · by_cases h2 : a = '+'
        · subst h2
          show (parseUnsigned t).map (fun p => (⟨(p.1 : Int), p.2⟩ : DecNum)) = none
          rw [parseUnsigned_none_of_nodigit t ht]
          rfl
        · rw [parseFix_of_head_ne a t h1 h2, parseUnsigned_none_of_nodigit (a :: t) h]
          rfl

theorem numParsePhase_none_of_nodigit (l : List Char) (h : NoDigitL l) :
    numParsePhase l = none := by
  unfold numParsePhase
  by_cases hc : l = [] ∨ l = ['-'] ∨ l = ['-', '-'] ∨ l = ['+']
  · rw [if_pos hc]
  · rw [if_neg hc]
    exact parseFix_none_of_nodigit l h

theorem toNumberCore_none_of_nodigit (l : List Char) (h : NoDigitL l) :
    toNumberCore l = none := by
  unfold toNumberCore
  exact numParsePhase_none_of_nodigit _
    (noDigit_filterKeep _ (noDigit_plusStep _ (noDigit_parenStep _ (noDigit_triStep _
      (noDigit_unifyDash _ (noDigit_stripCurrency _ (noDigit_stripInvisible _ h)))))))

/-- C1: `to_number_strict` is total (it is a function in this model — no input
raises): a missing input returns the missing marker immediately; the
post-cleanup sentinel strings `""`, `"-"`, `"--"`, `"+"` return the missing
marker; and every input containing no decimal digit at all (symbol-only input)
returns the missing marker. -/
theorem c1_total_missing :
    to_number_strict RawCell.missing = none ∧
    to_number_strict (.text "") = none ∧
    to_number_strict (.text "-") = none ∧
    to_number_strict (.text "--") = none ∧
    to_number_strict (.text "+") = none ∧
    ∀ s : String, (∀ c ∈ s.data, c.isDigit = false) → to_number_strict (.text s) = none := by
  refine ⟨rfl, by decide, by decide, by decide, by decide, ?_⟩
  intro s hs
  show toNumberCore s.data = none
  exact toNumberCore_none_of_nodigit s.data hs

/-- Witness for C1 at the concrete symbol-only input `"N/A"`. -/
theorem c1_total_missing_witness : to_number_strict (.text "N/A") = none :=
  c1_total_missing.2.2.2.2.2 "N/A" (by decide)

/-- C8 counterexample: the parenthesized-negative rule does not fire exactly on
strings wrapped in a single matching pair of parentheses.  `"(1)(2)"` is not so
wrapped (its outer parentheses do not match each other), yet the rule fires and
the input normalizes to `-12`; `"(1\n2)"` is so wrapped, yet the rule does not
fire (`.` in `re.fullmatch(r"\(.*\)", s)` does not match the newline) and the
input normalizes to `12`, not `-12`. -/
theorem c8_counterexample :
    wrappedInSingleMatchingPair ("(1)(2)".data) = false ∧
    parenStep ("(1)(2)".data) = "-1)(2".data ∧
    to_number_strict (.text "(1)(2)") = some ⟨-12, 0⟩ ∧
    wrappedInSingleMatchingPair ("(1\n2)".data) = true ∧
    parenStep ("(1\n2)".data) = "(1\n2)".data ∧
    to_number_strict (.text "(1\n2)") = some ⟨12, 0⟩ :=
  ⟨by decide, by decide, by decide, by decide, by decide, by decide⟩

/-- C8 (amended): the parenthesized-negative rule fires exactly when the
(trimmed) string starts with `'('`, ends with `')'`, and contains no newline
strictly between — the two parentheses need not match each other; it then drops
the outer parentheses, strips the inside, and prepends a minus sign, so that
`"(1234)"` becomes `"-1234"` and `"(500)"` normalizes to `-500.0`. -/
theorem c8_amended :
    (∀ mid : List Char, '\n' ∉ mid → parenStep ('(' :: (mid ++ [')'])) = '-' :: trimBoth mid) ∧
    (∀ l : List Char, parenStep l = l ∨
       ∃ mid, l = '(' :: (mid ++ [')']) ∧ '\n' ∉ mid ∧ parenStep l = '-' :: trimBoth mid) ∧
    parenStep ("(1234)".data) = "-1234".data ∧
    to_number_strict (.text "(500)") = some ⟨-500, 0⟩ :=
  ⟨parenStep_fires, parenStep_cases, by decide, by decide⟩

/-- Witness for C8 (amended) at the concrete middle `"500"`. -/
theorem c8_amended_witness :
    '\n' ∉ ("500".data) ∧ parenStep ('(' :: ("500".data ++ [')'])) = '-' :: trimBoth ("500".data) :=
  ⟨by decide, c8_amended.1 "500".data (by decide)⟩

/-! Substring search: trimming does not affect the `"amount"` test. -/

theorem leadMatch_iff (p l : List Char) : leadMatch p l = true ↔ ∃ v, l = p ++ v := by
  induction p generalizing l with
  | nil => simp [leadMatch]
  | cons a pr ih =>
      cases l with
      | nil =>
          simp only [leadMatch]
          constructor
          · intro h; cases h
          · rintro ⟨v, hv⟩; cases hv
      | cons b t =>
          simp only [leadMatch, Bool.and_eq_true, beq_iff_eq]
          rw [ih]
          constructor
          · rintro ⟨rfl, v, rfl⟩
            exact ⟨v, rfl⟩
          · rintro ⟨v, hv⟩
            injection hv with h1 h2
            exact ⟨h1.symm, v, h2⟩

theorem containsSeq_iff (p l : List Char) :
    containsSeq p l = true ↔ ∃ u v, l = u ++ p ++ v := by
  induction l with
  | nil =>
      simp only [containsSeq, List.isEmpty_iff]
      constructor
      · rintro rfl
        exact ⟨[], [], rfl⟩
      · rintro ⟨u, v, huv⟩
        rcases u with _ | ⟨a, u⟩
        · rcases p with _ | ⟨a, p⟩
          · rfl
          · cases huv
        · cases huv
  | cons b t ih =>
      simp only [containsSeq, Bool.or_eq_true, leadMatch_iff, ih]
      constructor
      · rintro (⟨v, hv⟩ | ⟨u, v, hv⟩)
        · exact ⟨[], v, by simpa using hv⟩
        · exact ⟨b :: u, v, by simp [hv]⟩
      · rintro ⟨u, v, huv⟩
        rcases u with _ | ⟨a, u⟩
        · left
          exact ⟨v, by simpa using huv⟩
        · right
          injection huv with h1 h2
          exact ⟨u, v, h2⟩

theorem containsSeq_reverse (p l : List Char) :
    containsSeq p.reverse l.reverse = containsSeq p l := by
  have h : containsSeq p.reverse l.reverse = true ↔ containsSeq p l = true := by
    rw [containsSeq_iff, containsSeq_iff]
    constructor
    · rintro ⟨u, v, huv⟩
      refine ⟨v.reverse, u.reverse, ?_⟩
      have := congrArg List.reverse huv
      simpa using this
    · rintro ⟨u, v, rfl⟩
      exact ⟨v.reverse, u.reverse, by simp⟩
  rcases hb : containsSeq p l
  · rw [← Bool.not_eq_true] at hb ⊢
    intro hc
    exact hb (h.mp hc)
  · exact h.mpr hb

theorem containsSeq_dropWhile (pat : List Char) (q : Char → Bool) (l : List Char)
    (hne : pat ≠ []) (hq : ∀ c ∈ pat, q c = false) :
    containsSeq pat (l.dropWhile q) = containsSeq pat l := by
  induction l with
  | nil => rfl
  | cons a t ih =>
      by_cases hqa : q a = true
      · rw [List.dropWhile_cons_of_pos hqa, ih]
        obtain ⟨p0, pr, rfl⟩ := List.exists_cons_of_ne_nil hne
        have hp0 : p0 ≠ a := by
          intro hrfl
          rw [hrfl] at hq
          exact absurd hqa (by simp [hq a (by simp)])
        show containsSeq (p0 :: pr) t = containsSeq (p0 :: pr) (a :: t)
        have : leadMatch (p0 :: pr) (a :: t) = false := by
          simp [leadMatch, hp0]
        simp [containsSeq, this]
      · rw [List.dropWhile_cons_of_neg hqa]

theorem containsSeq_trimBoth (pat l : List Char) (hne : pat ≠ [])
    (hsp : ∀ c ∈ pat, spaceB c = false) :
    containsSeq pat (trimBoth l) = containsSeq pat l := by
  have hner : pat.reverse ≠ [] := by simpa using hne
  have hspr : ∀ c ∈ pat.reverse, spaceB c = false :=
    fun c hc => hsp c (List.mem_reverse.mp hc)
  have key : ∀ Y : List Char,
      containsSeq pat (Y.reverse.dropWhile spaceB).reverse = containsSeq pat Y := by
    intro Y
    have h1 := containsSeq_reverse pat (Y.reverse.dropWhile spaceB).reverse
    rw [List.reverse_reverse] at h1
    rw [← h1, containsSeq_dropWhile pat.reverse spaceB _ hner hspr, containsSeq_reverse]
  unfold trimBoth trimRight trimLeft
  rw [key (l.dropWhile spaceB), containsSeq_dropWhile pat spaceB l hne hsp]

/-- C6 counterexample: for the header `"a​mount"` (a zero-width space
inside the word), the writer's test — lowercase, strip invisible characters,
then look for `"amount"` — accepts, while the collection loop's test
(`"amount" in str(c).lower()`, no invisible-character stripping) rejects: the
two sites do not use one single discriminator. -/
theorem c6_counterexample :
    isAmountLoop "a​mount" = false ∧ isAmountWriter "a​mount" = true := by
  constructor
  · decide
  · decide

/-- C6 (amended): the writer classifies a column as an AmountColumn exactly when
its lowercased, invisible-stripped, trimmed name contains `"amount"`; the
collection loop instead tests the lowercased raw name.  The two discriminators
agree for every header whose lowercased form contains no invisible characters. -/
theorem c6_amended (c : String)
    (h : stripInvisible (lowerList c.data) = lowerList c.data) :
    isAmountWriter c = isAmountLoop c := by
  unfold isAmountWriter isAmountLoop normHeader
  rw [h]
  exact containsSeq_trimBoth amountPat _ (by decide) (by decide)

/-- Witness for C6 (amended) at the concrete header `"Thstrm_Amount"`. -/
theorem c6_amended_witness :
    stripInvisible (lowerList "Thstrm_Amount".data) = lowerList "Thstrm_Amount".data ∧
    isAmountWriter "Thstrm_Amount" = isAmountLoop "Thstrm_Amount" :=
  ⟨by decide, c6_amended "Thstrm_Amount" (by decide)⟩

/-! Frame effect of the writer on the caller's DataFrame. -/

theorem list_map_id_of {α : Type} (f : α → α) (l : List α) (h : ∀ x ∈ l, f x = x) :
    l.map f = l := by
  induction l with
  | nil => rfl
  | cons a t ih =>
      simp only [List.map_cons, h a (by simp)]
      rw [ih (fun x hx => h x (by simp [hx]))]

theorem pdToNumericCell_id (v : RawCell) (hv : v.isTextCell = false) :
    pdToNumericCell v = v := by
  cases v with
  | missing => rfl
  | num d => rfl
  | inf b => rfl
  | text s => exact absurd hv (by simp [RawCell.isTextCell])

theorem coerce_name_row_id (c : String) (hc : isAmountWriter c = true) :
    ∀ (names : List String) (r : List RawCell), r.length ≤ names.length →
    ((names.map isAmountWriter).zip r).all (fun p => !p.1 || !p.2.isTextCell) = true →
    List.zipWith (fun n v => if n = c then pdToNumericCell v else v) names r = r := by
  intro names
  induction names with
  | nil =>
      intro r hlen _
      cases r with
      | nil => rfl
      | cons v vs => simp at hlen
  | cons n ns ih =>
      intro r hlen h
      cases r with
      | nil => rfl
      | cons v vs =>
          simp only [List.map_cons, List.zip_cons_cons, List.all_cons, Bool.and_eq_true] at h
          obtain ⟨h1, h2⟩ := h
          simp only [List.zipWith_cons_cons]
          congr 1
          · by_cases hn : n = c
            · rw [hn, hc] at h1
              simp only [Bool.not_true, Bool.false_or, Bool.not_eq_true'] at h1
              rw [if_pos hn]
              exact pdToNumericCell_id v h1
            · rw [if_neg hn]
          · exact ih vs (by simpa using hlen) h2

theorem coerceColumn_some_eq (c : String) (hc : isAmountWriter c = true) (df df2 : DataFrame)
    (hwf : df.WF = true) (hclean : amountCellsClean df = true)
    (h : coerceColumn c df = some df2) : df2 = df := by
  unfold coerceColumn at h
  by_cases hcnt : df.colNames.count c = 1
  · rw [if_pos hcnt] at h
    injection h with h
    rw [← h]
    cases df with
    | mk cols rows =>
        simp only [DataFrame.mk.injEq, true_and]
        refine list_map_id_of _ _ (fun r hr => ?_)
        have hlen := List.all_eq_true.mp hwf r hr
        simp only [beq_iff_eq] at hlen
        have hcl := List.all_eq_true.mp hclean r hr
        exact coerce_name_row_id c hc cols r (le_of_eq hlen) hcl
  · rw [if_neg hcnt] at h
    cases h

theorem coerceLoop_fst_clean (df : DataFrame) (hwf : df.WF = true)
    (hclean : amountCellsClean df = true) :
    ∀ cs : List String, (∀ c ∈ cs, isAmountWriter c = true) → (coerceLoop cs df).1 = df := by
  intro cs
  induction cs with
  | nil => intro _; rfl
  | cons c cs ih =>
      intro hall
      cases hcc : coerceColumn c df with
      | none => simp [coerceLoop, hcc]
      | some df2 =>
          have h2 : df2 = df := coerceColumn_some_eq c (hall c (by simp)) df df2 hwf hclean hcc
          simp only [coerceLoop, hcc]
          rw [h2]
          exact ih (fun x hx => hall x (by simp [hx]))

theorem coerceColumn_colNames (c : String) (df df2 : DataFrame)
    (h : coerceColumn c df = some df2) : df2.colNames = df.colNames := by
  unfold coerceColumn at h
  by_cases hcnt : df.colNames.count c = 1
  · rw [if_pos hcnt] at h
    injection h with h
    rw [← h]
  · rw [if_neg hcnt] at h
    cases h

theorem coerceLoop_fst_colNames : ∀ (cs : List String) (df : DataFrame),
    (coerceLoop cs df).1.colNames = df.colNames := by
  intro cs
  induction cs with
  | nil => intro df; rfl
  | cons c cs ih =>
      intro df
      cases hcc : coerceColumn c df with
      | none => simp [coerceLoop, hcc]
      | some df2 =>
          simp only [coerceLoop, hcc]
          rw [ih df2, coerceColumn_colNames c df df2 hcc]

/-- C7 counterexample: the call is not free of effects on the caller's dataset —
for a DataFrame whose amount column holds the text `"abc"`, the in-place
coercion of lines 77-78 changes the dataset (the cell becomes missing). -/
theorem c7_counterexample :
    (save_excel_with_comma_format dfTextAmount).1 ≠ dfTextAmount := by decide

/-- C7 (amended): besides creating/overwriting the output file, the call also
coerces the AmountColumns of the passed dataset to numeric in place; the
dataset is left unchanged exactly in the intended usage where its
AmountColumns already contain no textual cells. -/
theorem c7_amended (df : DataFrame) (hwf : df.WF = true)
    (hclean : amountCellsClean df = true) :
    (save_excel_with_comma_format df).1 = df := by
  show (coerceLoop (df.colNames.filter isAmountWriter) df).1 = df
  exact coerceLoop_fst_clean df hwf hclean _ (fun c hc => (List.mem_filter.mp hc).2)

/-- Witness for C7 (amended) at a concrete already-numeric DataFrame. -/
theorem c7_amended_witness :
    dfNumAmount.WF = true ∧ amountCellsClean dfNumAmount = true ∧
    (save_excel_with_comma_format dfNumAmount).1 = dfNumAmount :=
  ⟨by decide, by decide, c7_amended dfNumAmount (by decide) (by decide)⟩

/-! Per-unit isolation of the collection loop. -/

theorem collect_foldl_spec (fetch : Nat → String → FetchOutcome) (nm : String → String)
    (ps : List (Nat × String)) : ∀ acc : CollectResult,
    (ps.foldl (collectStep fetch nm) acc).frames =
      acc.frames ++ ps.filterMap (fun p =>
        match fetch p.1 p.2 with
        | .frame df => if !dfEmpty df then some (addProvenance (nm p.2) p.1 df) else none
        | _ => none) ∧
    (ps.foldl (collectStep fetch nm) acc).errors =
      acc.errors ++ ps.filter (fun p => (fetch p.1 p.2).isRaises) := by
  induction ps with
  | nil => intro acc; simp
  | cons p ps ih =>
      intro acc
      simp only [List.foldl_cons, List.filterMap_cons, List.filter_cons]
      obtain ⟨ihf, ihe⟩ := ih (collectStep fetch nm acc p)
      cases hf : fetch p.1 p.2 with
      | frame df =>
          by_cases hemp : dfEmpty df
          · have hstep : collectStep fetch nm acc p =
                ⟨acc.frames, acc.successes, acc.warnings ++ [p], acc.errors⟩ := by
              unfold collectStep
              rw [hf]
              simp [hemp]
            rw [ihf, ihe, hstep]
            simp [hf, hemp, FetchOutcome.isRaises]
          · have hstep : collectStep fetch nm acc p =
                ⟨acc.frames ++ [addProvenance (nm p.2) p.1 df], acc.successes ++ [p],
                 acc.warnings, acc.errors⟩ := by
              unfold collectStep
              rw [hf]
              simp [hemp]
            rw [ihf, ihe, hstep]
            simp [hf, hemp, FetchOutcome.isRaises]
      | noneResult =>
          have hstep : collectStep fetch nm acc p =
              ⟨acc.frames, acc.successes, acc.warnings ++ [p], acc.errors⟩ := by
            unfold collectStep
            rw [hf]
          rw [ihf, ihe, hstep]
          simp [hf, FetchOutcome.isRaises]
      | raises msg =>
          have hstep : collectStep fetch nm acc p =
              ⟨acc.frames, acc.successes, acc.warnings, acc.errors ++ [p]⟩ := by
            unfold collectStep
            rw [hf]
          rw [ihf, ihe, hstep]
          simp [hf, FetchOutcome.isRaises]

/-- C9: per-unit fetch isolation.  In general, the collection loop returns
exactly the (provenance-tagged) data of every pair whose fetch succeeds with a
non-empty frame, and reports exactly the pairs whose fetch raises — one
failure never aborts the batch.  In particular, for three requests where the
second raises, the loop still returns the data of requests 1 and 3 and reports
exactly one failure. -/
theorem c9_fetch_isolation :
    (∀ (fetch : Nat → String → FetchOutcome) (nm : String → String)
       (years : List Nat) (codes : List String),
       (collect fetch nm years codes).frames =
         (pairsOf years codes).filterMap (fun p =>
           match fetch p.1 p.2 with
           | .frame df => if !dfEmpty df then some (addProvenance (nm p.2) p.1 df) else none
           | _ => none) ∧
       (collect fetch nm years codes).errors =
         (pairsOf years codes).filter (fun p => (fetch p.1 p.2).isRaises)) ∧
    (collect fetchScenario id [2024] ["A", "B", "C"]).frames =
      [addProvenance "A" 2024 dfA, addProvenance "C" 2024 dfC] ∧
    (collect fetchScenario id [2024] ["A", "B", "C"]).errors = [(2024, "B")] := by
  refine ⟨fun fetch nm years codes => ?_, by decide, by decide⟩
  have h := collect_foldl_spec fetch nm (pairsOf years codes) ⟨[], [], [], []⟩
  simpa [collect] using h

/-! The writer and the repair pass. -/

theorem updateAt_getElem? {α : Type} (f : α → α) (n : Nat) (l : List α) (m : Nat) :
    (updateAt f n l)[m]? = if m = n then (l[m]?).map f else l[m]? := by
  induction l generalizing n m with
  | nil => simp [updateAt]
  | cons a t ih =>
      cases n with
      | zero =>
          cases m with
          | zero => simp [updateAt]
          | succ m' => simp [updateAt]
      | succ n' =>
          cases m with
          | zero => simp [updateAt]
          | succ m' => simpa [updateAt] using ih n' m'

theorem getElem?_zipWith {α β γ : Type} (f : α → β → γ) (as : List α) (bs : List β) (i : Nat) :
    (List.zipWith f as bs)[i]? =
      match as[i]?, bs[i]? with
      | some a, some b => some (f a b)
      | _, _ => none := by
  induction as generalizing bs i with
  | nil =>
      simp only [List.zipWith_nil_left, List.getElem?_nil]
  | cons a as ih =>
      cases bs with
      | nil =>
          simp only [List.zipWith_nil_right, List.getElem?_nil]
          cases (a :: as)[i]? <;> rfl
      | cons b bs =>
          cases i with
          | zero => simp [List.zipWith_cons_cons]
          | succ i' =>
              simp only [List.zipWith_cons_cons, List.getElem?_cons_succ]
              exact ih bs i'

theorem lastIdxOf_getElem? (l : List String) (c : String) (j : Nat)
    (h : lastIdxOf l c = some j) : l[j]? = some c := by
  induction l generalizing j with
  | nil => cases h
  | cons a t ih =>
      simp only [lastIdxOf] at h
      cases hl : lastIdxOf t c with
      | some j' =>
          rw [hl] at h
          injection h with h1
          subst h1
          simpa using ih j' hl
      | none =>
          rw [hl] at h
          by_cases hac : a = c
          · rw [if_pos hac] at h
            injection h with h1
            subst h1
            simp [hac]
          · rw [if_neg hac] at h
            cases h

theorem lastIdxOf_isSome_of_mem (l : List String) (c : String) (h : c ∈ l) :
    (lastIdxOf l c).isSome = true := by
  induction l with
  | nil => cases h
  | cons a t ih =>
      simp only [lastIdxOf]
      cases hl : lastIdxOf t c with
      | some j => simp
      | none =>
          rcases List.mem_cons.mp h with rfl | hm
          · simp
          · rw [← hl]
            have := ih hm
            rw [hl] at this
            cases this

theorem resolveIdx_of_mem (hdr : List String) (c : String) (h : c ∈ hdr) :
    resolveIdx hdr c = lastIdxOf hdr c := by
  unfold resolveIdx
  cases hl : lastIdxOf hdr c with
  | some j => rfl
  | none =>
      have := lastIdxOf_isSome_of_mem hdr c h
      rw [hl] at this
      cases this

theorem resolved_getElem (hdr : List String) (c : String) (j : Nat) (hm : c ∈ hdr)
    (h : resolveIdx hdr c = some j) : hdr[j]? = some c := by
  rw [resolveIdx_of_mem hdr c hm] at h
  exact lastIdxOf_getElem? hdr c j h

theorem repairCol_header (c : String) (sh : Sheet) : (repairCol c sh).header = sh.header := by
  unfold repairCol
  split <;> rfl

theorem repairPass_header (cols : List String) : ∀ sh : Sheet,
    (repairPass cols sh).header = sh.header := by
  induction cols with
  | nil => intro sh; rfl
  | cons c cs ih =>
      intro sh
      show (repairPass cs (repairCol c sh)).header = sh.header
      rw [ih (repairCol c sh), repairCol_header]

theorem repairCol_of_none (c : String) (sh : Sheet) (h : resolveIdx sh.header c = none) :
    repairCol c sh = sh := by
  unfold repairCol
  rw [h]

theorem cellAt_repairCol (c : String) (sh : Sheet) (j : Nat)
    (h : resolveIdx sh.header c = some j) (i j' : Nat) :
    cellAt (repairCol c sh) i j' =
      if j' = j then (cellAt sh i j').map repairCell else cellAt sh i j' := by
  unfold repairCol
  rw [h]
  unfold cellAt
  simp only [List.getElem?_map]
  cases hrow : sh.cells[i]? with
  | none => simp
  | some r =>
      simp only [Option.map_some']
      show (updateAt repairCell j r)[j']? = _
      rw [updateAt_getElem?]
      by_cases hj : j' = j
      · simp [hj]
      · simp [hj]

theorem repairCell_idem (cell : Cell) : repairCell (repairCell cell) = repairCell cell := by
  cases cell with
  | mk v f =>
      cases v with
      | blankC => rfl
      | numC d => rfl
      | textC s =>
          simp only [repairCell]
          cases h : to_number_strict_openpyxl (some s) with
          | none => simp [repairCell, h]
          | some d => rfl

theorem cellAt_repairCol_R (c : String) (sh : Sheet) (i j : Nat) :
    cellAt (repairCol c sh) i j = cellAt sh i j ∨
      ∃ cell, cellAt sh i j = some cell ∧ cellAt (repairCol c sh) i j = some (repairCell cell) := by
  cases hres : resolveIdx sh.header c with
  | none => left; rw [repairCol_of_none c sh hres]
  | some j0 =>
      rw [cellAt_repairCol c sh j0 hres i j]
      by_cases hj : j = j0
      · rw [if_pos hj]
        cases hcell : cellAt sh i j with
        | none => left; rfl
        | some cell => right; exact ⟨cell, rfl, rfl⟩
      · left; rw [if_neg hj]

theorem cellAt_repairPass_R (cols : List String) : ∀ (sh : Sheet) (i j : Nat),
    cellAt (repairPass cols sh) i j = cellAt sh i j ∨
      ∃ cell, cellAt sh i j = some cell ∧
        cellAt (repairPass cols sh) i j = some (repairCell cell) := by
  induction cols with
  | nil => intro sh i j; left; rfl
  | cons c cs ih =>
      intro sh i j
      have hstep := cellAt_repairCol_R c sh i j
      have hrest := ih (repairCol c sh) i j
      show cellAt (repairPass cs (repairCol c sh)) i j = cellAt sh i j ∨
        ∃ cell, cellAt sh i j = some cell ∧
          cellAt (repairPass cs (repairCol c sh)) i j = some (repairCell cell)
      rcases hstep with h1 | ⟨cell, hc1, hc2⟩
      · rcases hrest with h2 | ⟨cell, hc1, hc2⟩
        · left; rw [h2, h1]
        · right; exact ⟨cell, by rw [← h1, hc1], hc2⟩
      · rcases hrest with h2 | ⟨cell', hc1', hc2'⟩
        · right; exact ⟨cell, hc1, by rw [h2, hc2]⟩
        · right
          refine ⟨cell, hc1, ?_⟩
          rw [hc2] at hc1'
          injection hc1' with hcc
          rw [hc2', ← hcc, repairCell_idem]

theorem repairPass_untouched (cols : List String) : ∀ (sh : Sheet) (j : Nat),
    (∀ x ∈ cols, ∀ jx, resolveIdx sh.header x = some jx → jx ≠ j) →
    ∀ i, cellAt (repairPass cols sh) i j = cellAt sh i j := by
  induction cols with
  | nil => intro sh j _ i; rfl
  | cons c cs ih =>
      intro sh j hres i
      show cellAt (repairPass cs (repairCol c sh)) i j = cellAt sh i j
      have hcol : cellAt (repairCol c sh) i j = cellAt sh i j := by
        cases hr : resolveIdx sh.header c with
        | none => rw [repairCol_of_none c sh hr]
        | some j0 =>
            rw [cellAt_repairCol c sh j0 hr i j,
              if_neg (fun hj => hres c (by simp) j0 hr hj.symm)]
      rw [← hcol]
      refine ih (repairCol c sh) j ?_ i
      intro x hx jx hjx
      rw [repairCol_header] at hjx
      exact hres x (by simp [hx]) jx hjx

theorem repairPass_at (cols : List String) : ∀ (sh : Sheet) (c : String) (j : Nat),
    c ∈ cols → cols.Nodup → (∀ x ∈ cols, x ∈ sh.header) →
    resolveIdx sh.header c = some j →
    ∀ i, cellAt (repairPass cols sh) i j = (cellAt sh i j).map repairCell := by
  induction cols with
  | nil => intro sh c j hc; cases hc
  | cons c0 cs ih =>
      intro sh c j hc hnd hsub hres i
      have hcmem : c ∈ sh.header := hsub c hc
      have hcj : sh.header[j]? = some c := resolved_getElem sh.header c j hcmem hres
      show cellAt (repairPass cs (repairCol c0 sh)) i j = _
      by_cases hcc : c = c0
      · subst hcc
        have hcol : cellAt (repairCol c sh) i j = (cellAt sh i j).map repairCell := by
          rw [cellAt_repairCol c sh j hres i j, if_pos rfl]
        rw [← hcol]
        refine repairPass_untouched cs (repairCol c sh) j ?_ i
        intro x hx jx hjx hjj
        subst hjj
        rw [repairCol_header] at hjx
        have hxc : x ≠ c := by
          intro hrfl
          subst hrfl
          exact (List.nodup_cons.mp hnd).1 hx
        have hxmem : x ∈ sh.header := hsub x (by simp [hx])
        have := resolved_getElem sh.header x jx hxmem hjx
        rw [hcj] at this
        injection this with hxeq
        exact hxc hxeq.symm
      · have hcs : c ∈ cs := by
          rcases List.mem_cons.mp hc with hrfl | h
          · exact absurd hrfl hcc
          · exact h
        have hcol : cellAt (repairCol c0 sh) i j = cellAt sh i j := by
          cases hr0 : resolveIdx sh.header c0 with
          | none => rw [repairCol_of_none c0 sh hr0]
          | some j0 =>
              rw [cellAt_repairCol c0 sh j0 hr0 i j]
              rw [if_neg]
              intro hjj
              subst hjj
              have h0mem : c0 ∈ sh.header := hsub c0 (by simp)
              have h0j := resolved_getElem sh.header c0 j h0mem hr0
              rw [hcj] at h0j
              injection h0j with hceq
              exact hcc hceq
        rw [← hcol]
        refine ih (repairCol c0 sh) c j hcs (List.nodup_cons.mp hnd).2 ?_ ?_ i
        · intro x hx
          rw [repairCol_header]
          exact hsub x (by simp [hx])
        · rw [repairCol_header]
          exact hres

theorem writeCell_true_inv (v : RawCell) (cell : Cell) (h : writeCell true v = some cell) :
    (∃ d, cell.v = CellVal.numC d) ∨ cell.v = CellVal.blankC := by
  cases v with
  | missing =>
      injection h with h
      rw [← h]
      exact Or.inr rfl
  | num d =>
      injection h with h
      rw [← h]
      exact Or.inl ⟨d, rfl⟩
  | inf b => exact absurd h (by simp [writeCell])
  | text s =>
      have hred : writeCell true (.text s) =
          match parseFloatLit s.data with
          | some (.finite d) => some ⟨CellVal.numC d, some numFmt⟩
          | _ => none := rfl
      rw [hred] at h
      cases hp : parseFloatLit s.data with
      | none => rw [hp] at h; cases h
      | some pf =>
          rw [hp] at h
          cases pf with
          | finite d =>
              injection h with h
              rw [← h]
              exact Or.inl ⟨d, rfl⟩
          | infF b => cases h
          | nanF => cases h

theorem writeRow_inv (bs : List Bool) : ∀ (vs : List RawCell) (cs : List Cell),
    writeRow bs vs = some cs →
    ∀ (j : Nat) (cell : Cell), cs[j]? = some cell →
      ∃ (b : Bool) (v : RawCell), bs[j]? = some b ∧ vs[j]? = some v ∧
        writeCell b v = some cell := by
  induction bs with
  | nil =>
      intro vs cs h j cell hj
      have hnil : cs = [] := by
        cases vs <;> (injection h with h; exact h.symm)
      subst hnil
      simp at hj
  | cons b bs ih =>
      intro vs cs h j cell hj
      cases vs with
      | nil =>
          injection h with h
          rw [← h] at hj
          simp at hj
      | cons v vs =>
          have hdef : writeRow (b :: bs) (v :: vs) =
              match writeCell b v, writeRow bs vs with
              | some c, some cs => some (c :: cs)
              | _, _ => none := rfl
          rw [hdef] at h
          cases hc : writeCell b v with
          | none => rw [hc] at h; cases h
          | some c0 =>
              rw [hc] at h
              cases hrow : writeRow bs vs with
              | none => rw [hrow] at h; cases h
              | some cs0 =>
                  rw [hrow] at h
                  injection h with h
                  rw [← h] at hj
                  cases j with
                  | zero =>
                      simp only [List.getElem?_cons_zero] at hj
                      injection hj with hj
                      rw [← hj]
                      exact ⟨b, v, by simp, by simp, hc⟩
                  | succ j' =>
                      simp only [List.getElem?_cons_succ] at hj
                      obtain ⟨b', v', hb', hv', hw'⟩ := ih vs cs0 hrow j' cell hj
                      exact ⟨b', v', by simpa using hb', by simpa using hv', hw'⟩

theorem writeRows_inv (mask : List Bool) : ∀ (rows : List (List RawCell))
    (css : List (List Cell)), writeRows mask rows = some css →
    ∀ (i : Nat) (cs : List Cell), css[i]? = some cs →
      ∃ r, rows[i]? = some r ∧ writeRow mask r = some cs := by
  intro rows
  induction rows with
  | nil =>
      intro css h i cs hi
      injection h with h
      rw [← h] at hi
      simp at hi
  | cons r rs ih =>
      intro css h i cs hi
      have hdef : writeRows mask (r :: rs) =
          match writeRow mask r, writeRows mask rs with
          | some cr, some crs => some (cr :: crs)
          | _, _ => none := rfl
      rw [hdef] at h
      cases hr : writeRow mask r with
      | none => rw [hr] at h; cases h
      | some cr =>
          rw [hr] at h
          cases hrs : writeRows mask rs with
          | none => rw [hrs] at h; cases h
          | some crs =>
              rw [hrs] at h
              injection h with h
              rw [← h] at hi
              cases i with
              | zero =>
                  simp only [List.getElem?_cons_zero] at hi
                  injection hi with hi
                  rw [← hi]
                  exact ⟨r, by simp, hr⟩
              | succ i' =>
                  simp only [List.getElem?_cons_succ] at hi
                  obtain ⟨rr, hrr, hwr⟩ := ih crs hrs i' cs hi
                  exact ⟨rr, by simpa using hrr, hwr⟩

theorem repairCell_preserves (cell : Cell)
    (h : (∃ d, cell.v = CellVal.numC d) ∨ cell.v = CellVal.blankC) :
    (∃ d, (repairCell cell).v = CellVal.numC d) ∨ (repairCell cell).v = CellVal.blankC := by
  cases cell with
  | mk v f =>
      cases v with
      | blankC => exact Or.inr rfl
      | numC d => exact Or.inl ⟨d, rfl⟩
      | textC s =>
          rcases h with ⟨d, hd⟩ | hd <;> cases hd

/-- C4: whenever `save_excel_with_comma_format` completes its write — the
coercion loop raises on a duplicated amount label, and `write_number` raises on
a non-finite amount value, in which cases no file exists and the claim is
vacuous — the resulting file has the DataFrame's columns as its header, and
every data cell of every AmountColumn holds a true numeric value or is blank,
never a text representation of a number: the primary pass writes amount cells
only with `write_number`/`write_blank` (`writeCell`), and the repair pass never
turns a non-text cell into text. -/
theorem c4_amount_cells_numeric_or_blank (df : DataFrame) (sh : Sheet)
    (hsave : (save_excel_with_comma_format df).2 = some sh) :
    sh.header = df.colNames ∧
    ∀ (i j : Nat) (h : String) (cell : Cell), sh.header[j]? = some h →
      isAmountWriter h = true → cellAt sh i j = some cell →
      (∃ d, cell.v = CellVal.numC d) ∨ cell.v = CellVal.blankC := by
  have hsave' : (if (coerceLoop (df.colNames.filter isAmountWriter) df).2 = true then
      (writePass1 (coerceLoop (df.colNames.filter isAmountWriter) df).1).map
        (repairPass (df.colNames.filter isAmountWriter)) else none) = some sh := hsave
  by_cases hb : (coerceLoop (df.colNames.filter isAmountWriter) df).2 = true
  case neg => rw [if_neg hb] at hsave'; cases hsave'
  rw [if_pos hb] at hsave'
  cases hp : writePass1 (coerceLoop (df.colNames.filter isAmountWriter) df).1 with
  | none => rw [hp] at hsave'; cases hsave'
  | some sh0 =>
      rw [hp] at hsave'
      simp only [Option.map_some'] at hsave'
      injection hsave' with hsave'
      have hcols1 : (coerceLoop (df.colNames.filter isAmountWriter) df).1.colNames =
          df.colNames := coerceLoop_fst_colNames _ df
      unfold writePass1 at hp
      cases hws : writeRows (amountMask (coerceLoop (df.colNames.filter isAmountWriter) df).1)
          (coerceLoop (df.colNames.filter isAmountWriter) df).1.rows with
      | none => rw [hws] at hp; cases hp
      | some css =>
          rw [hws] at hp
          simp only [Option.map_some'] at hp
          injection hp with hp
          have hhdr : sh.header = df.colNames := by
            rw [← hsave', repairPass_header, ← hp]
            exact hcols1
          refine ⟨hhdr, ?_⟩
          intro i j h cell hh hamt hcell
          have hmask : (amountMask (coerceLoop (df.colNames.filter isAmountWriter) df).1)[j]? =
              some true := by
            show ((coerceLoop (df.colNames.filter isAmountWriter) df).1.colNames.map
              isAmountWriter)[j]? = some true
            rw [List.getElem?_map]
            have hcj : (coerceLoop (df.colNames.filter isAmountWriter) df).1.colNames[j]? =
                some h := by
              rw [hcols1, ← hhdr]
              exact hh
            rw [hcj]
            simp [hamt]
          have hbase : ∀ cell0 : Cell, cellAt sh0 i j = some cell0 →
              (∃ d, cell0.v = CellVal.numC d) ∨ cell0.v = CellVal.blankC := by
            intro cell0 h0
            rw [← hp] at h0
            have h0' : css[i]?.bind (fun r => r[j]?) = some cell0 := h0
            cases hci : css[i]? with
            | none => rw [hci] at h0'; cases h0'
            | some cs =>
                rw [hci, Option.some_bind] at h0'
                obtain ⟨r, hri, hwr⟩ := writeRows_inv _ _ css hws i cs hci
                obtain ⟨b, v, hbj, hvj, hwc⟩ := writeRow_inv _ r cs hwr j cell0 h0'
                rw [hmask] at hbj
                injection hbj with hbj
                rw [← hbj] at hwc
                exact writeCell_true_inv v cell0 hwc
          have hR := cellAt_repairPass_R (df.colNames.filter isAmountWriter) sh0 i j
          rw [← hsave'] at hcell
          rcases hR with h1 | ⟨cell0, hb0, hrep⟩
          · rw [hcell] at h1
            exact hbase cell h1.symm
          · rw [hcell] at hrep
            injection hrep with hrep
            rw [hrep]
            exact repairCell_preserves cell0 (hbase cell0 hb0)

/-- Witness for C4 at the concrete mixed DataFrame `dfMixed`, whose write
completes and produces `sheetMixed`. -/
theorem c4_witness :
    (save_excel_with_comma_format dfMixed).2 = some sheetMixed ∧
    sheetMixed.header = dfMixed.colNames :=
  ⟨by decide, (c4_amount_cells_numeric_or_blank dfMixed sheetMixed (by decide)).1⟩

/-- C5: in the repair pass, for any AmountColumn name resolved to column `j`
and any data cell there that is still textual: if its content parses under the
normalizer rules (`_to_number_strict_openpyxl`), the cell is overwritten with
that numeric value and given the `#,##0` display format; if it does not parse,
the cell is left exactly as it was — never silently coerced or blanked. -/
theorem c5_repair_textual_cells (sh : Sheet) (cols : List String) (c : String) (j i : Nat)
    (hc : c ∈ cols) (hnd : cols.Nodup) (hsub : ∀ x ∈ cols, x ∈ sh.header)
    (hres : resolveIdx sh.header c = some j) (s : String) (f : Option String)
    (hcell : cellAt sh i j = some ⟨CellVal.textC s, f⟩) :
    (∀ d, to_number_strict_openpyxl (some s) = some d →
       cellAt (repairPass cols sh) i j = some ⟨CellVal.numC d, some numFmt⟩) ∧
    (to_number_strict_openpyxl (some s) = none →
       cellAt (repairPass cols sh) i j = some ⟨CellVal.textC s, f⟩) := by
  have hmain := repairPass_at cols sh c j hc hnd hsub hres i
  rw [hcell] at hmain
  constructor
  · intro d hd
    rw [hmain, Option.map_some']
    simp [repairCell, hd]
  · intro hd
    rw [hmain, Option.map_some']
    simp [repairCell, hd]

/-- Witness for C5 at a concrete one-column sheet whose amount cell holds the
text `"1,234"`: the repair pass overwrites it with the number 1234 and the
`#,##0` format. -/
theorem c5_repair_textual_cells_witness :
    cellAt (repairPass ["amount"] sheetTextAmount) 0 0 =
      some ⟨CellVal.numC ⟨1234, 0⟩, some numFmt⟩ :=
  (c5_repair_textual_cells sheetTextAmount ["amount"] "amount" 0 0 (by decide) (by decide)
    (by decide) (by decide) "1,234" none (by decide)).1 ⟨1234, 0⟩ (by decide)

/-! Scientific-notation renderings re-enter the normalizer as NaN: the `'e'` is
dropped by the defensive filter, leaving an interior sign that no decimal
literal admits. -/

/-- C10 counterexample: the two parsers do not agree on every input.  On
`"10000000000000001"` (a 17-digit integer) the primary normalizer keeps the
int64-exact value via `pd.to_numeric`, while the repair-pass parser goes
through `float` and rounds to the nearest double, `1e16`. -/
theorem c10_counterexample :
    to_number_strict (.text "10000000000000001") = some ⟨10000000000000001, 0⟩ ∧
    to_number_strict_openpyxl (some "10000000000000001") = some ⟨10000000000000000, 0⟩ ∧
    to_number_strict (.text "10000000000000001") ≠
      to_number_strict_openpyxl (some "10000000000000001") :=
  ⟨by decide, by decide, by decide⟩

/-- C10 (amended): the two parsers run the identical text-processing pipeline,
so they fail on exactly the same inputs; and whenever the primary normalizer
returns a value whose integral magnitude is below `2^53` (where float64 is
exact), the repair-pass parser returns the same value. -/
theorem c10_amended :
    (∀ s : String,
       to_number_strict (.text s) = none ↔ to_number_strict_openpyxl (some s) = none) ∧
    (∀ (s : String) (d : DecNum), to_number_strict (.text s) = some d →
       d.m.natAbs / 10 ^ d.e < 2 ^ 53 →
       to_number_strict_openpyxl (some s) = some d) := by
  constructor
  · intro s
    show toNumberCore s.data = none ↔ (toNumberCore s.data).map dblRound = none
    cases toNumberCore s.data <;> simp
  · intro s d hd hlt
    show (toNumberCore s.data).map dblRound = some d
    have hd' : toNumberCore s.data = some d := hd
    rw [hd', Option.map_some']
    have hr : dblRound d = d := by
      simp only [dblRound]
      rw [if_pos hlt]
    rw [hr]

/-- Witness for C10 (amended) at the input `"1,234"`. -/
theorem c10_amended_witness :
    to_number_strict_openpyxl (some "1,234") = some ⟨1234, 0⟩ :=
  c10_amended.2 "1,234" ⟨1234, 0⟩ (by decide) (by decide)
